import Mathlib

/-!
Verification of the AirSpeaker core: a shallow embedding of
`airspeaker/audio_streamer.py` (the `StreamBroadcaster` fan-out buffer and
the HTTP stream handler), `airspeaker/cast_controller.py` (discovery,
connection supervision and the watchdog loop) and `airspeaker/config.py`.

Python `dict[int, α]` values are modelled as association lists preserving
insertion order, as CPython dicts do; byte strings as `List Nat`; the
monotonic clock as natural-number instants fed to the loops that read it.
-/

namespace AirSpeaker

/-- A byte string (`bytes` in the source). -/
abbrev Bytes := List Nat

/-! ### Association-list model of Python dicts -/

/-- `d.get(k)` / `d[k]` lookup: first entry with the given key. -/
def alookup {κ α : Type} [DecidableEq κ] : List (κ × α) → κ → Option α
  | [], _ => none
  | (k, v) :: rest, key => if k = key then some v else alookup rest key

/-- `d[k] = v`: update in place if the key is present, else append
(CPython dicts keep insertion order). -/
def aset {κ α : Type} [DecidableEq κ] : List (κ × α) → κ → α → List (κ × α)
  | [], key, v => [(key, v)]
  | (k, w) :: rest, key, v =>
    if k = key then (k, v) :: rest else (k, w) :: aset rest key v

/-- `d.pop(k, None)`: drop the entry with the given key, if any. -/
def aerase {κ α : Type} [DecidableEq κ] : List (κ × α) → κ → List (κ × α)
  | [], _ => []
  | (k, w) :: rest, key =>
    if k = key then rest else (k, w) :: aerase rest key

/-- The keys of an association list, in order. -/
def akeys {κ α : Type} (l : List (κ × α)) : List κ := l.map Prod.fst

/-- `d.get(k, 0)`. -/
def agetD (l : List (Nat × Nat)) (key : Nat) : Nat := (alookup l key).getD 0

/-! ### StreamBroadcaster state (`audio_streamer.py` lines 27-89) -/

/-- `_MIN_CHUNK_BYTES = 4096`: minimum bytes to accumulate before sending. -/
def MIN_CHUNK_BYTES : Nat := 4096

/-- The mutable state of a `StreamBroadcaster`: `_clients` maps consumer id
to its list of pending chunks, `_client_sizes` maps consumer id to its
accumulated byte count, `_next_id` is the next id to hand out.  The lock and
event are not part of the data; the event's effect is modelled by the clock
schedule fed to `pullLoop`. -/
structure Broadcaster where
  clients : List (Nat × List Bytes)
  clientSizes : List (Nat × Nat)
  nextId : Nat
deriving Repr, DecidableEq

/-- `StreamBroadcaster.__init__`. -/
def Broadcaster.init : Broadcaster := ⟨[], [], 0⟩

/-- `register()`: hand out `_next_id`, bump it, create an empty buffer and a
zero size entry. Returns the fresh id and the new state. -/
def register (s : Broadcaster) : Nat × Broadcaster :=
  (s.nextId,
   { clients := aset s.clients s.nextId []
     clientSizes := aset s.clientSizes s.nextId 0
     nextId := s.nextId + 1 })

/-- `unregister(cid)`: pop the client from both dicts. -/
def unregister (s : Broadcaster) (cid : Nat) : Broadcaster :=
  { s with clients := aerase s.clients cid
           clientSizes := aerase s.clientSizes cid }

/-- The `_client_sizes` update loop inside `push`: for each registered
client, `self._client_sizes[cid] = self._client_sizes.get(cid, 0) + len(data)`. -/
def pushSizes (cl : List (Nat × List Bytes)) (len : Nat)
    (sz : List (Nat × Nat)) : List (Nat × Nat) :=
  cl.foldl (fun sz p => aset sz p.1 (agetD sz p.1 + len)) sz

/-- `push(data)`: append `data` to every registered client's buffer and bump
its accumulated size. -/
def push (s : Broadcaster) (data : Bytes) : Broadcaster :=
  { s with clients := s.clients.map (fun p => (p.1, p.2 ++ [data]))
           clientSizes := pushSizes s.clients data.length s.clientSizes }

/-- A sequence of pushes, in order. -/
def pushAll (s : Broadcaster) (ps : List Bytes) : Broadcaster :=
  ps.foldl push s

/-- The three outcomes of `pull`: `gone` is Python `None` (client
unregistered), `empty` is `b""` (timeout with no data), `data` is a joined
byte string. -/
inductive PullResult
  | gone
  | empty
  | data (bs : Bytes)
deriving Repr, DecidableEq

/-- The state mutation of a data-returning `pull`: `buf.clear()` and
`self._client_sizes[cid] = 0`. -/
def flushClient (s : Broadcaster) (cid : Nat) : Broadcaster :=
  { s with clients := aset s.clients cid []
           clientSizes := aset s.clientSizes cid 0 }

/-- `pull(cid, timeout)`: the `while True` loop, one entry of `clocks` per
iteration giving the value `time.monotonic()` reads at the top of that
iteration (line 63).  `deadline ≤ t` is `remaining <= 0`.  With the deadline
not yet reached the loop waits on the event, then under the lock returns
`gone` if the client vanished, flushes if the accumulated size reached
`MIN_CHUNK_BYTES`, and otherwise iterates.  At the deadline it flushes
whatever is buffered, returning `empty` when nothing is.  `none` means the
clock schedule ran out with the loop still running. -/
def pullLoop (s : Broadcaster) (cid : Nat) (deadline : Nat) :
    List Nat → Option (PullResult × Broadcaster)
  | [] => none
  | t :: ts =>
    if deadline ≤ t then
      match alookup s.clients cid with
      | none => some (.gone, s)
      | some buf =>
        if buf.isEmpty then some (.empty, s)
        else some (.data buf.flatten, flushClient s cid)
    else
      match alookup s.clients cid with
      | none => some (.gone, s)
      | some buf =>
        if MIN_CHUNK_BYTES ≤ agetD s.clientSizes cid then
          some (.data buf.flatten, flushClient s cid)
        else pullLoop s cid deadline ts

/-! ### Broadcaster operation traces -/

/-- One client-visible operation on the broadcaster.  A `pull` carries the
deadline and the clock schedule of its loop. -/
inductive Op
  | register
  | unregister (cid : Nat)
  | push (data : Bytes)
  | pull (cid : Nat) (deadline : Nat) (clocks : List Nat)

/-- Apply one operation; a `register` also emits the id it returned. -/
def stepOp (s : Broadcaster) : Op → Broadcaster × Option Nat
  | .register => ((register s).2, some (register s).1)
  | .unregister cid => (unregister s cid, none)
  | .push d => (push s d, none)
  | .pull cid dl ts =>
    (match pullLoop s cid dl ts with
     | some (_, s') => s'
     | none => s, none)

/-- Run a trace of operations; returns the final state and the ids the
`register` calls returned, in call order. -/
def runOps (s : Broadcaster) : List Op → Broadcaster × List Nat
  | [] => (s, [])
  | op :: ops =>
    ((runOps (stepOp s op).1 ops).1,
     (stepOp s op).2.toList ++ (runOps (stepOp s op).1 ops).2)

/-- The accumulated byte count a buffer should report: the sum of the
lengths of its pending chunks. -/
def sumLen (buf : List Bytes) : Nat := (buf.map List.length).sum

/-- The broadcaster's structural invariant: client keys are duplicate-free,
`_clients` and `_client_sizes` hold exactly the same keys in the same
insertion order, every key is below `_next_id`, and each recorded size is
the byte total of the corresponding pending chunks. -/
structure WF (s : Broadcaster) : Prop where
  nodup : (akeys s.clients).Nodup
  keysEq : akeys s.clients = akeys s.clientSizes
  bound : ∀ k ∈ akeys s.clients, k < s.nextId
  sizes : ∀ cid buf, alookup s.clients cid = some buf →
    alookup s.clientSizes cid = some (sumLen buf)

/-! ### Config (`config.py`) -/

/-- `STREAM_ENDPOINT = "/stream"`. -/
def STREAM_ENDPOINT : String := "/stream"

/-- `CODEC = "aac"`. -/
def CODEC : String := "aac"

/-- The `content_type` entries of `CODEC_PROFILES`. -/
def CODEC_CONTENT_TYPES : List (String × String) :=
  [("aac", "audio/aac"), ("mp3", "audio/mpeg")]

/-- `stream_content_type()`: `CODEC_PROFILES[CODEC]["content_type"]`
(the key is present, so `getD` never falls back). -/
def stream_content_type : String := (alookup CODEC_CONTENT_TYPES CODEC).getD ""

/-! ### HTTP stream handler (`audio_streamer.py` lines 96-132) -/

/-- Status line and headers of a response as `_StreamHandler` emits them. -/
structure HttpResponse where
  status : Nat
  headers : List (String × String)
deriving Repr, DecidableEq

/-- `_StreamHandler.do_GET`: `404` off the stream endpoint, otherwise `200`
with the streaming headers (lines 101-111). -/
def do_GET (path : String) : HttpResponse :=
  if path ≠ STREAM_ENDPOINT then ⟨404, []⟩
  else ⟨200, [("Content-Type", stream_content_type),
              ("Cache-Control", "no-cache, no-store"),
              ("Connection", "keep-alive"),
              ("icy-name", "AirSpeaker")]⟩

/-- Method dispatch done by the handler's base class,
`http.server.BaseHTTPRequestHandler.handle_one_request`: a request whose
method has no matching `do_<METHOD>` member on the handler is answered
`501 Unsupported method`; `_StreamHandler` defines only `do_GET`. -/
def handleRequest (method path : String) : HttpResponse :=
  if method = "GET" then do_GET path else ⟨501, []⟩

/-! ### Cast controller (`cast_controller.py`) -/

/-- `CastDevice` dataclass. -/
structure CastDevice where
  friendlyName : String
  modelName : String
  host : String
  uuid : String
deriving Repr, DecidableEq

/-- The mutable fields of `CastController` that connection handling reads
and writes: `_browser` (modelled as a presence flag), `_cast` (an abstract
handle), `_stream_url`, `_connected_uuid`, `_should_reconnect`, and the
`_discovered_devices` snapshot keyed by uuid. -/
structure CastState where
  browser : Bool
  cast : Option Nat
  streamUrl : String
  connectedUuid : Option String
  shouldReconnect : Bool
  discovered : List (String × CastDevice)
deriving Repr, DecidableEq

/-- `is_connected` property: `self._cast is not None and self._connected_uuid is not None`. -/
def isConnected (s : CastState) : Bool := s.cast.isSome && s.connectedUuid.isSome

/-- `_cleanup_cast`: stop the browser, disconnect the cast handle, clear
`_connected_uuid` (external calls have no state effect here). -/
def cleanupCast (s : CastState) : CastState :=
  { s with browser := false, cast := none, connectedUuid := none }

/-- `disconnect()`: clear `_should_reconnect` first, ask the device to stop
(external), then `_cleanup_cast`. -/
def disconnect (s : CastState) : CastState :=
  cleanupCast { s with shouldReconnect := false }

/-- How the environment behaves during `connect`'s `try` block:
`get_listed_chromecasts` finds nothing, or raises before anything is
assigned, or `cast.wait()` raises after `_browser`/`_cast` were assigned, or
`_play_stream` raises after `_connected_uuid` was also assigned, or
everything succeeds yielding a handle. -/
inductive ConnectEnv
  | noCasts
  | raiseAtGetListed
  | raiseAtWait (h : Nat)
  | raiseAtPlay (h : Nat)
  | ok (h : Nat)

/-- `connect(uuid, stream_url)` (lines 113-155): `disconnect()` first, fail
if the uuid is not in the discovery snapshot, then set `_stream_url` and run
the `try` block; every `except` path runs `_cleanup_cast` and returns
`False`; the empty-chromecasts path returns `False` having assigned nothing. -/
def connect (s : CastState) (uuid url : String) (env : ConnectEnv) :
    Bool × CastState :=
  let s1 := disconnect s
  match alookup s1.discovered uuid with
  | none => (false, s1)
  | some _ =>
    let s2 := { s1 with streamUrl := url }
    match env with
    | .noCasts => (false, s2)
    | .raiseAtGetListed => (false, cleanupCast s2)
    | .raiseAtWait h => (false, cleanupCast { s2 with browser := true, cast := some h })
    | .raiseAtPlay h =>
      (false, cleanupCast { s2 with browser := true, cast := some h,
                                    connectedUuid := some uuid })
    | .ok h =>
      (true, { s2 with browser := true, cast := some h,
                       connectedUuid := some uuid, shouldReconnect := true })

/-- Whether discovery succeeds with a device list or raises. -/
inductive DiscoverEnv
  | ok (ds : List CastDevice)
  | fail

/-- The device list discovery produces: the found devices on success, the
empty list when discovery raises. -/
def envResult : DiscoverEnv → List CastDevice
  | .ok ds => ds
  | .fail => []

/-- `_discover_blocking(timeout)` (lines 80-109): returns the device list
and, when a callback was registered, what that callback is invoked with (a
failure both returns and delivers `[]`). -/
def discoverBlocking (cbRegistered : Bool) (env : DiscoverEnv) :
    List CastDevice × Option (List CastDevice) :=
  (envResult env, if cbRegistered then some (envResult env) else none)

/-- `discover(callback, timeout)` (lines 63-78): with a callback, store it,
start `_discover_blocking` on a background thread and return `[]` at once —
the results reach the caller only through the callback; without one, run
`_discover_blocking` synchronously and return its list. -/
def discover (hasCallback : Bool) (env : DiscoverEnv) :
    List CastDevice × Option (List CastDevice) :=
  if hasCallback then ([], (discoverBlocking true env).2)
  else discoverBlocking false env

/-! ### Watchdog loop (`cast_controller.py` lines 199-232) -/

/-- The 15-second grace window set after connect and after each replay. -/
def GRACE_SECONDS : Nat := 15

/-- `status and status.player_state in ("IDLE", "UNKNOWN")`: `none` models a
falsy `status`. -/
def isIdleState : Option String → Bool
  | some st => st = "IDLE" || st = "UNKNOWN"
  | none => false

/-- The per-tick state of `_reconnect_loop`: the grace deadline and the
consecutive-idle counter. -/
structure WatchState where
  graceUntil : Nat
  idleCount : Nat
deriving Repr, DecidableEq

/-- One poll tick of `_reconnect_loop` at clock `t` observing `obs`: inside
the grace window the tick is skipped; an idle/unknown observation bumps the
counter and, at two, replays (restarting the grace window and zeroing the
counter); any other observation zeroes the counter.  The returned flag
records whether `_play_stream` was re-issued this tick. -/
def watchStep (s : WatchState) (t : Nat) (obs : Option String) :
    WatchState × Bool :=
  if t < s.graceUntil then (s, false)
  else if isIdleState obs then
    if 2 ≤ s.idleCount + 1 then (⟨t + GRACE_SECONDS, 0⟩, true)
    else (⟨s.graceUntil, s.idleCount + 1⟩, false)
  else (⟨s.graceUntil, 0⟩, false)

/-- Run the watchdog over a schedule of (clock, observation) ticks,
recording which ticks replayed. -/
def watchRun (s : WatchState) : List (Nat × Option String) → List Bool
  | [] => []
  | (t, obs) :: rest =>
    (watchStep s t obs).2 :: watchRun (watchStep s t obs).1 rest

/-! ### Association-list lemmas -/

theorem akeys_nil {κ α : Type} : akeys ([] : List (κ × α)) = [] := rfl

theorem akeys_cons {κ α : Type} (p : κ × α) (l : List (κ × α)) :
    akeys (p :: l) = p.1 :: akeys l := rfl

theorem alookup_eq_none {κ α : Type} [DecidableEq κ] (l : List (κ × α)) (key : κ) :
    alookup l key = none ↔ key ∉ akeys l := by
  induction l with
  | nil => simp [alookup, akeys_nil]
  | cons p rest ih =>
    rw [akeys_cons, List.mem_cons]
    by_cases hk : p.1 = key
    · simp [alookup, hk]
    · rw [alookup, if_neg hk, ih]
      constructor
      · intro hn
        push_neg
        exact ⟨fun he => hk he.symm, hn⟩
      · intro hn hm
        exact hn (Or.inr hm)

theorem mem_of_alookup_eq_some {κ α : Type} [DecidableEq κ] {l : List (κ × α)}
    {key : κ} {v : α} (h : alookup l key = some v) : key ∈ akeys l := by
  by_contra hm
  rw [← alookup_eq_none l key] at hm
  rw [h] at hm
  exact Option.noConfusion hm

theorem alookup_aset_self {κ α : Type} [DecidableEq κ] (l : List (κ × α))
    (k : κ) (v : α) : alookup (aset l k v) k = some v := by
  induction l with
  | nil => simp [aset, alookup]
  | cons p rest ih =>
    by_cases hk : p.1 = k <;> simp [aset, alookup, hk, ih]

theorem alookup_aset_ne {κ α : Type} [DecidableEq κ] (l : List (κ × α))
    (k : κ) (v : α) (key : κ) (h : k ≠ key) :
    alookup (aset l k v) key = alookup l key := by
  induction l with
  | nil => simp [aset, alookup, h]
  | cons p rest ih =>
    by_cases hk : p.1 = k
    · simp [aset, alookup, hk, h]
    · by_cases hk2 : p.1 = key <;>
        simp [aset, alookup, hk, hk2, h, h.symm, ih]

theorem mem_akeys_aset {κ α : Type} [DecidableEq κ] (l : List (κ × α))
    (k : κ) (v : α) (key : κ) :
    key ∈ akeys (aset l k v) ↔ key ∈ akeys l ∨ key = k := by
  induction l with
  | nil => simp [aset, akeys_nil, akeys_cons, eq_comm]
  | cons p rest ih =>
    by_cases hk : p.1 = k
    · simp [aset, hk, akeys_cons, List.mem_cons]
      tauto
    · simp [aset, hk, akeys_cons, List.mem_cons, ih]
      tauto

theorem akeys_aset_mem {κ α : Type} [DecidableEq κ] (l : List (κ × α))
    (k : κ) (v : α) (h : k ∈ akeys l) : akeys (aset l k v) = akeys l := by
  induction l with
  | nil => simp [akeys_nil] at h
  | cons p rest ih =>
    by_cases hk : p.1 = k
    · simp [aset, hk, akeys_cons]
    · rw [akeys_cons, List.mem_cons] at h
      rcases h with h | h
      · exact absurd h.symm hk
      · simp [aset, hk, akeys_cons, ih h]

theorem akeys_aset_congr {κ α β : Type} [DecidableEq κ] (l : List (κ × α))
    (l' : List (κ × β)) (k : κ) (v : α) (w : β) (h : akeys l = akeys l') :
    akeys (aset l k v) = akeys (aset l' k w) := by
  induction l generalizing l' with
  | nil =>
    cases l' with
    | nil => simp [aset, akeys_nil, akeys_cons]
    | cons q rest' => simp [akeys_nil, akeys_cons] at h
  | cons p rest ih =>
    cases l' with
    | nil => simp [akeys_nil, akeys_cons] at h
    | cons q rest' =>
      rw [akeys_cons, akeys_cons] at h
      obtain ⟨h1, h2⟩ := List.cons.injEq _ _ _ _ ▸ h
      by_cases hk : p.1 = k
      · simp [aset, hk, h1 ▸ hk, akeys_cons, h1, h2]
      · have hqk : ¬ q.1 = k := h1 ▸ hk
        simp [aset, hk, hqk, akeys_cons, h1]
        exact ih rest' h2

theorem nodup_akeys_aset {κ α : Type} [DecidableEq κ] (l : List (κ × α))
    (k : κ) (v : α) (h : (akeys l).Nodup) : (akeys (aset l k v)).Nodup := by
  induction l with
  | nil => simp [aset, akeys_nil, akeys_cons]
  | cons p rest ih =>
    rw [akeys_cons, List.nodup_cons] at h
    by_cases hk : p.1 = k
    · rw [aset, if_pos hk, akeys_cons, List.nodup_cons]
      exact ⟨h.1, h.2⟩
    · rw [aset, if_neg hk, akeys_cons, List.nodup_cons]
      refine ⟨?_, ih h.2⟩
      intro hmem
      rw [mem_akeys_aset] at hmem
      rcases hmem with hmem | hmem
      · exact h.1 hmem
      · exact hk hmem

theorem mem_akeys_aerase {κ α : Type} [DecidableEq κ] (l : List (κ × α))
    (key k : κ) (h : k ∈ akeys (aerase l key)) : k ∈ akeys l := by
  induction l with
  | nil => simp [aerase, akeys_nil] at h
  | cons p rest ih =>
    by_cases hk : p.1 = key
    · rw [aerase, if_pos hk] at h
      rw [akeys_cons, List.mem_cons]
      exact Or.inr h
    · rw [aerase, if_neg hk, akeys_cons, List.mem_cons] at h
      rw [akeys_cons, List.mem_cons]
      tauto

theorem nodup_akeys_aerase {κ α : Type} [DecidableEq κ] (l : List (κ × α))
    (key : κ) (h : (akeys l).Nodup) : (akeys (aerase l key)).Nodup := by
  induction l with
  | nil => simp [aerase, akeys_nil]
  | cons p rest ih =>
    rw [akeys_cons, List.nodup_cons] at h
    by_cases hk : p.1 = key
    · rw [aerase, if_pos hk]
      exact h.2
    · rw [aerase, if_neg hk, akeys_cons, List.nodup_cons]
      exact ⟨fun hm => h.1 (mem_akeys_aerase rest key p.1 hm), ih h.2⟩

theorem alookup_aerase_self {κ α : Type} [DecidableEq κ] (l : List (κ × α))
    (key : κ) (h : (akeys l).Nodup) : alookup (aerase l key) key = none := by
  induction l with
  | nil => simp [aerase, alookup]
  | cons p rest ih =>
    rw [akeys_cons, List.nodup_cons] at h
    by_cases hk : p.1 = key
    · rw [aerase, if_pos hk, alookup_eq_none]
      exact hk ▸ h.1
    · rw [aerase, if_neg hk, alookup, if_neg hk]
      exact ih h.2

theorem alookup_aerase_ne {κ α : Type} [DecidableEq κ] (l : List (κ × α))
    (key k : κ) (h : k ≠ key) : alookup (aerase l key) k = alookup l k := by
  induction l with
  | nil => simp [aerase]
  | cons p rest ih =>
    by_cases hk : p.1 = key
    · have hpk : ¬ p.1 = k := fun he => h (he ▸ hk)
      rw [aerase, if_pos hk, alookup, if_neg hpk]
    · by_cases hk2 : p.1 = k <;>
        rw [aerase, if_neg hk] <;> simp [alookup, hk2, ih]

theorem akeys_aerase_congr {κ α β : Type} [DecidableEq κ] (l : List (κ × α))
    (l' : List (κ × β)) (key : κ) (h : akeys l = akeys l') :
    akeys (aerase l key) = akeys (aerase l' key) := by
  induction l generalizing l' with
  | nil =>
    cases l' with
    | nil => simp [aerase, akeys_nil]
    | cons q rest' => simp [akeys_nil, akeys_cons] at h
  | cons p rest ih =>
    cases l' with
    | nil => simp [akeys_nil, akeys_cons] at h
    | cons q rest' =>
      rw [akeys_cons, akeys_cons] at h
      obtain ⟨h1, h2⟩ := List.cons.injEq _ _ _ _ ▸ h
      by_cases hk : p.1 = key
      · rw [aerase, if_pos hk, aerase, if_pos (h1 ▸ hk)]
        exact h2
      · have hqk : ¬ q.1 = key := h1 ▸ hk
        rw [aerase, if_neg hk, aerase, if_neg hqk, akeys_cons, akeys_cons, h1,
          ih rest' h2]

theorem alookup_map_snd {κ α β : Type} [DecidableEq κ] (l : List (κ × α))
    (f : α → β) (key : κ) :
    alookup (l.map fun p => (p.1, f p.2)) key = (alookup l key).map f := by
  induction l with
  | nil => simp [alookup]
  | cons p rest ih =>
    by_cases hk : p.1 = key <;> simp [alookup, hk, ih]

theorem akeys_map_snd {κ α β : Type} (l : List (κ × α)) (f : α → β) :
    akeys (l.map fun p => (p.1, f p.2)) = akeys l := by
  induction l with
  | nil => rfl
  | cons p rest ih => rw [List.map_cons, akeys_cons, akeys_cons, ih]

/-! ### `push` size-floor lemmas -/

theorem pushSizes_cons (p : Nat × List Bytes) (cl : List (Nat × List Bytes))
    (len : Nat) (sz : List (Nat × Nat)) :
    pushSizes (p :: cl) len sz =
      pushSizes cl len (aset sz p.1 (agetD sz p.1 + len)) := rfl

theorem pushSizes_alookup_notMem (cl : List (Nat × List Bytes)) (len : Nat)
    (sz : List (Nat × Nat)) (key : Nat) (h : key ∉ akeys cl) :
    alookup (pushSizes cl len sz) key = alookup sz key := by
  induction cl generalizing sz with
  | nil => rfl
  | cons p rest ih =>
    rw [akeys_cons, List.mem_cons] at h
    push_neg at h
    rw [pushSizes_cons, ih _ h.2, alookup_aset_ne _ _ _ _ (fun he => h.1 he.symm)]

theorem pushSizes_alookup_mem (cl : List (Nat × List Bytes)) (len : Nat)
    (sz : List (Nat × Nat)) (key : Nat) (hnd : (akeys cl).Nodup)
    (h : key ∈ akeys cl) :
    alookup (pushSizes cl len sz) key = some (agetD sz key + len) := by
  induction cl generalizing sz with
  | nil => simp [akeys_nil] at h
  | cons p rest ih =>
    rw [akeys_cons, List.nodup_cons] at hnd
    rw [akeys_cons, List.mem_cons] at h
    by_cases hk : p.1 = key
    · rw [pushSizes_cons, pushSizes_alookup_notMem _ _ _ _ (hk ▸ hnd.1), hk,
        alookup_aset_self]
    · rcases h with h | h
      · exact absurd h.symm hk
      · rw [pushSizes_cons, ih _ hnd.2 h]
        have : agetD (aset sz p.1 (agetD sz p.1 + len)) key = agetD sz key := by
          rw [agetD, alookup_aset_ne _ _ _ _ hk, agetD]
        rw [this]

theorem akeys_pushSizes (cl : List (Nat × List Bytes)) (len : Nat)
    (sz : List (Nat × Nat)) (h : ∀ k ∈ akeys cl, k ∈ akeys sz) :
    akeys (pushSizes cl len sz) = akeys sz := by
  induction cl generalizing sz with
  | nil => rfl
  | cons p rest ih =>
    rw [pushSizes_cons, ih, akeys_aset_mem]
    · exact h p.1 (by rw [akeys_cons]; exact List.mem_cons_self _ _)
    · intro k hk
      rw [mem_akeys_aset]
      exact Or.inl (h k (by rw [akeys_cons]; exact List.mem_cons_of_mem _ hk))

/-! ### Preservation of the broadcaster invariant -/

theorem sumLen_append (buf : List Bytes) (d : Bytes) :
    sumLen (buf ++ [d]) = sumLen buf + d.length := by
  simp [sumLen]

theorem wf_init : WF Broadcaster.init := by
  constructor <;> simp [Broadcaster.init, akeys_nil, alookup]

theorem register_nextId_notMem {s : Broadcaster} (h : WF s) :
    s.nextId ∉ akeys s.clients :=
  fun hm => Nat.lt_irrefl _ (h.bound _ hm)

theorem wf_register {s : Broadcaster} (h : WF s) : WF (register s).2 := by
  have hnm : s.nextId ∉ akeys s.clients := register_nextId_notMem h
  constructor
  · exact nodup_akeys_aset _ _ _ h.nodup
  · exact akeys_aset_congr _ _ _ _ _ h.keysEq
  · intro k hk
    rw [register] at hk
    simp only [] at hk
    rw [mem_akeys_aset] at hk
    rcases hk with hk | hk
    · exact Nat.lt_trans (h.bound _ hk) (Nat.lt_succ_self _)
    · rw [register]
      simp only [hk]
      exact Nat.lt_succ_self _
  · intro cid buf hb
    rw [register] at hb ⊢
    simp only [] at hb ⊢
    by_cases hc : cid = s.nextId
    · subst hc
      rw [alookup_aset_self] at hb
      cases hb
      rw [alookup_aset_self]
      rfl
    · rw [alookup_aset_ne _ _ _ _ (fun he => hc he.symm)] at hb
      rw [alookup_aset_ne _ _ _ _ (fun he => hc he.symm)]
      exact h.sizes cid buf hb

theorem wf_unregister {s : Broadcaster} (h : WF s) (cid : Nat) :
    WF (unregister s cid) := by
  constructor
  · exact nodup_akeys_aerase _ _ h.nodup
  · exact akeys_aerase_congr _ _ _ h.keysEq
  · intro k hk
    exact h.bound k (mem_akeys_aerase _ _ _ hk)
  · intro c buf hb
    rw [unregister] at hb ⊢
    simp only [] at hb ⊢
    by_cases hc : c = cid
    · subst hc
      rw [alookup_aerase_self _ _ h.nodup] at hb
      exact Option.noConfusion hb
    · rw [alookup_aerase_ne _ _ _ hc] at hb
      rw [alookup_aerase_ne _ _ _ hc]
      exact h.sizes c buf hb

theorem push_alookup (s : Broadcaster) (d : Bytes) (cid : Nat) :
    alookup (push s d).clients cid = (alookup s.clients cid).map (· ++ [d]) :=
  alookup_map_snd s.clients (fun b => b ++ [d]) cid

theorem wf_push {s : Broadcaster} (h : WF s) (d : Bytes) : WF (push s d) := by
  have hkeys : akeys (push s d).clients = akeys s.clients :=
    akeys_map_snd s.clients (fun b => b ++ [d])
  have hszkeys : akeys (push s d).clientSizes = akeys s.clientSizes :=
    akeys_pushSizes s.clients d.length s.clientSizes
      (fun k hk => h.keysEq ▸ hk)
  constructor
  · rw [hkeys]; exact h.nodup
  · rw [hkeys, hszkeys]
    exact h.keysEq
  · intro k hk
    rw [hkeys] at hk
    exact h.bound k hk
  · intro cid buf hb
    rw [push_alookup] at hb
    cases hb0 : alookup s.clients cid with
    | none => rw [hb0] at hb; exact Option.noConfusion hb
    | some buf0 =>
      rw [hb0] at hb
      cases hb
      have hmem : cid ∈ akeys s.clients := mem_of_alookup_eq_some hb0
      have hps : alookup (push s d).clientSizes cid =
          some (agetD s.clientSizes cid + d.length) :=
        pushSizes_alookup_mem s.clients d.length s.clientSizes cid h.nodup hmem
      rw [hps]
      have : agetD s.clientSizes cid = sumLen buf0 := by
        rw [agetD, h.sizes cid buf0 hb0]
        rfl
      rw [this, sumLen_append]

theorem wf_flush {s : Broadcaster} (h : WF s) (cid : Nat)
    (hm : cid ∈ akeys s.clients) : WF (flushClient s cid) := by
  constructor
  · exact nodup_akeys_aset _ _ _ h.nodup
  · exact akeys_aset_congr _ _ _ _ _ h.keysEq
  · intro k hk
    rw [flushClient] at hk
    simp only [] at hk
    rw [akeys_aset_mem _ _ _ hm] at hk
    exact h.bound k hk
  · intro c buf hb
    rw [flushClient] at hb ⊢
    simp only [] at hb ⊢
    by_cases hc : c = cid
    · subst hc
      rw [alookup_aset_self] at hb
      cases hb
      rw [alookup_aset_self]
      rfl
    · rw [alookup_aset_ne _ _ _ _ (fun he => hc he.symm)] at hb
      rw [alookup_aset_ne _ _ _ _ (fun he => hc he.symm)]
      exact h.sizes c buf hb

theorem wf_pullLoop {s : Broadcaster} (h : WF s) (cid deadline : Nat)
    (ts : List Nat) (r : PullResult) (s' : Broadcaster)
    (hp : pullLoop s cid deadline ts = some (r, s')) : WF s' := by
  induction ts with
  | nil => exact Option.noConfusion hp
  | cons t ts ih =>
    rw [pullLoop] at hp
    split at hp
    · split at hp
      · cases hp; exact h
      · rename_i buf hb
        split at hp
        · cases hp; exact h
        · cases hp; exact wf_flush h cid (mem_of_alookup_eq_some hb)
    · split at hp
      · cases hp; exact h
      · rename_i buf hb
        split at hp
        · cases hp; exact wf_flush h cid (mem_of_alookup_eq_some hb)
        · exact ih hp

theorem wf_stepOp {s : Broadcaster} (h : WF s) (op : Op) : WF (stepOp s op).1 := by
  cases op with
  | register => exact wf_register h
  | unregister cid => exact wf_unregister h cid
  | push d => exact wf_push h d
  | pull cid dl ts =>
    rw [stepOp]
    cases hp : pullLoop s cid dl ts with
    | none => simpa using h
    | some p =>
      simp only []
      exact wf_pullLoop h cid dl ts p.1 p.2 (by rw [hp])

theorem wf_runOps {s : Broadcaster} (h : WF s) (ops : List Op) :
    WF (runOps s ops).1 := by
  induction ops generalizing s with
  | nil => exact h
  | cons op ops ih => exact ih (wf_stepOp h op)

/-! ### Trace lemmas: ids and keys across operation sequences -/

theorem runOps_cons (s : Broadcaster) (op : Op) (ops : List Op) :
    runOps s (op :: ops) =
      ((runOps (stepOp s op).1 ops).1,
       (stepOp s op).2.toList ++ (runOps (stepOp s op).1 ops).2) := rfl

theorem stepOp_register (s : Broadcaster) :
    stepOp s .register = ((register s).2, some s.nextId) := rfl

theorem flushClient_nextId (s : Broadcaster) (cid : Nat) :
    (flushClient s cid).nextId = s.nextId := rfl

theorem pullLoop_nextId {s : Broadcaster} {cid dl : Nat} {ts : List Nat}
    {p : PullResult × Broadcaster} (hp : pullLoop s cid dl ts = some p) :
    p.2.nextId = s.nextId := by
  induction ts with
  | nil => exact Option.noConfusion hp
  | cons t ts ih =>
    rw [pullLoop] at hp
    split at hp
    · split at hp
      · cases hp; rfl
      · split at hp
        · cases hp; rfl
        · cases hp; rfl
    · split at hp
      · cases hp; rfl
      · split at hp
        · cases hp; rfl
        · exact ih hp

theorem pullLoop_akeys {s : Broadcaster} {cid dl : Nat} {ts : List Nat}
    {p : PullResult × Broadcaster} (hp : pullLoop s cid dl ts = some p) :
    akeys p.2.clients = akeys s.clients := by
  induction ts with
  | nil => exact Option.noConfusion hp
  | cons t ts ih =>
    rw [pullLoop] at hp
    split at hp
    · split at hp
      · cases hp; rfl
      · rename_i buf hb
        split at hp
        · cases hp; rfl
        · cases hp
          exact akeys_aset_mem _ _ _ (mem_of_alookup_eq_some hb)
    · split at hp
      · cases hp; rfl
      · rename_i buf hb
        split at hp
        · cases hp
          exact akeys_aset_mem _ _ _ (mem_of_alookup_eq_some hb)
        · exact ih hp

theorem stepOp_nextId_ge (s : Broadcaster) (op : Op) :
    s.nextId ≤ (stepOp s op).1.nextId := by
  cases op with
  | register => exact Nat.le_succ _
  | unregister cid => exact Nat.le_refl _
  | push d => exact Nat.le_refl _
  | pull cid dl ts =>
    show s.nextId ≤
      (match pullLoop s cid dl ts with
       | some (_, s') => s'
       | none => s).nextId
    cases hp : pullLoop s cid dl ts with
    | none => exact Nat.le_refl _
    | some p =>
      obtain ⟨r, s'⟩ := p
      exact Nat.le_of_eq (pullLoop_nextId hp).symm

theorem runOps_nextId_ge (s : Broadcaster) (ops : List Op) :
    s.nextId ≤ (runOps s ops).1.nextId := by
  induction ops generalizing s with
  | nil => exact Nat.le_refl _
  | cons op ops ih =>
    rw [runOps_cons]
    exact Nat.le_trans (stepOp_nextId_ge s op) (ih (stepOp s op).1)

theorem runOps_ids (s : Broadcaster) (ops : List Op) :
    ((runOps s ops).2).Sorted (· < ·) ∧
      ∀ i ∈ (runOps s ops).2, s.nextId ≤ i := by
  induction ops generalizing s with
  | nil =>
    refine ⟨List.sorted_nil, ?_⟩
    intro i hi
    simp [runOps] at hi
  | cons op ops ih =>
    rw [runOps_cons]
    cases op with
    | register =>
      rw [stepOp_register]
      simp only [Option.toList_some, List.singleton_append]
      have hnx : (register s).2.nextId = s.nextId + 1 := rfl
      constructor
      · rw [List.sorted_cons]
        refine ⟨fun b hb => ?_, (ih (register s).2).1⟩
        have h2 := (ih (register s).2).2 b hb
        omega
      · intro i hi
        rcases List.mem_cons.mp hi with hi | hi
        · omega
        · have := (ih (register s).2).2 i hi
          omega
    | unregister cid =>
      simp only [stepOp, Option.toList_none, List.nil_append]
      exact ⟨(ih (unregister s cid)).1,
        fun i hi => (ih (unregister s cid)).2 i hi⟩
    | push d =>
      simp only [stepOp, Option.toList_none, List.nil_append]
      exact ⟨(ih (push s d)).1, fun i hi => (ih (push s d)).2 i hi⟩
    | pull cid dl ts =>
      simp only [stepOp, Option.toList_none, List.nil_append]
      refine ⟨(ih (stepOp s (.pull cid dl ts)).1).1, fun i hi => ?_⟩
      have := (ih (stepOp s (.pull cid dl ts)).1).2 i hi
      exact Nat.le_trans (stepOp_nextId_ge s (.pull cid dl ts)) this

theorem runOps_ids_lt (s : Broadcaster) (ops : List Op) :
    ∀ i ∈ (runOps s ops).2, i < (runOps s ops).1.nextId := by
  induction ops generalizing s with
  | nil => intro i hi; simp [runOps] at hi
  | cons op ops ih =>
    rw [runOps_cons]
    intro i hi
    rcases List.mem_append.mp hi with hi | hi
    · cases op with
      | register =>
        rw [stepOp_register] at hi
        simp only [Option.toList_some, List.mem_singleton] at hi
        subst hi
        have h1 : (register s).2.nextId = s.nextId + 1 := rfl
        have h2 := runOps_nextId_ge (register s).2 ops
        show s.nextId < (runOps (register s).2 ops).1.nextId
        omega
      | unregister cid => simp [stepOp] at hi
      | push d => simp [stepOp] at hi
      | pull c dl ts => simp [stepOp] at hi
    · exact ih (stepOp s op).1 i hi

theorem stepOp_keys (s : Broadcaster) (op : Op) (k : Nat)
    (hk : k ∈ akeys (stepOp s op).1.clients) :
    k ∈ akeys s.clients ∨ (stepOp s op).2 = some k := by
  cases op with
  | register =>
    rw [stepOp_register] at hk ⊢
    have : akeys (register s).2.clients = akeys (aset s.clients s.nextId []) := rfl
    rw [this, mem_akeys_aset] at hk
    rcases hk with hk | hk
    · exact Or.inl hk
    · exact Or.inr (by rw [hk])
  | unregister cid =>
    exact Or.inl (mem_akeys_aerase _ _ _ hk)
  | push d =>
    have : akeys (push s d).clients = akeys s.clients :=
      akeys_map_snd s.clients (fun b => b ++ [d])
    rw [stepOp] at hk
    simp only [] at hk
    rw [this] at hk
    exact Or.inl hk
  | pull cid dl ts =>
    left
    revert hk
    show k ∈ akeys (match pullLoop s cid dl ts with
       | some (_, s') => s'
       | none => s).clients → k ∈ akeys s.clients
    cases hp : pullLoop s cid dl ts with
    | none => exact id
    | some p =>
      obtain ⟨r, s'⟩ := p
      intro hk
      have := pullLoop_akeys hp
      simp only [] at this
      rw [← this]
      exact hk

theorem runOps_keys_sub (s : Broadcaster) (ops : List Op) (k : Nat)
    (hk : k ∈ akeys (runOps s ops).1.clients) :
    k ∈ akeys s.clients ∨ k ∈ (runOps s ops).2 := by
  induction ops generalizing s with
  | nil => exact Or.inl hk
  | cons op ops ih =>
    rw [runOps_cons] at hk ⊢
    rcases ih (stepOp s op).1 hk with h | h
    · rcases stepOp_keys s op k h with h2 | h2
      · exact Or.inl h2
      · right
        rw [h2]
        simp
    · right
      simp [h]

theorem runOps_notMem_keys (s : Broadcaster) (ops : List Op) (cid : Nat)
    (hn : cid ∉ akeys s.clients) (hlt : cid < s.nextId) :
    cid ∉ akeys (runOps s ops).1.clients := by
  induction ops generalizing s with
  | nil => exact hn
  | cons op ops ih =>
    rw [runOps_cons]
    refine ih (stepOp s op).1 ?_ (Nat.lt_of_lt_of_le hlt (stepOp_nextId_ge s op))
    intro hk
    rcases stepOp_keys s op cid hk with h | h
    · exact hn h
    · cases op with
      | register =>
        rw [stepOp_register] at h
        have : s.nextId = cid := Option.some.inj h
        omega
      | unregister c => exact Option.noConfusion h
      | push d => exact Option.noConfusion h
      | pull c dl ts => exact Option.noConfusion h

/-! ### Pull behaviour lemmas -/

theorem pullLoop_gone (s : Broadcaster) (cid dl t : Nat) (ts : List Nat)
    (h : alookup s.clients cid = none) :
    pullLoop s cid dl (t :: ts) = some (.gone, s) := by
  rw [pullLoop]
  by_cases ht : dl ≤ t
  · rw [if_pos ht]
    simp only [h]
  · rw [if_neg ht]
    simp only [h]

theorem pushAll_cons (s : Broadcaster) (p : Bytes) (ps : List Bytes) :
    pushAll s (p :: ps) = pushAll (push s p) ps := rfl

theorem alookup_pushAll (s : Broadcaster) (ps : List Bytes) (cid : Nat)
    (buf : List Bytes) (h : alookup s.clients cid = some buf) :
    alookup (pushAll s ps).clients cid = some (buf ++ ps) := by
  induction ps generalizing s buf with
  | nil => simpa [pushAll] using h
  | cons p ps ih =>
    rw [pushAll_cons]
    have h1 : alookup (push s p).clients cid = some (buf ++ [p]) := by
      rw [push_alookup, h]
      rfl
    rw [ih _ _ h1]
    simp

theorem pullLoop_data_eq (s : Broadcaster) (cid dl : Nat) (ts : List Nat)
    (bs : Bytes) (s₂ : Broadcaster) (buf : List Bytes)
    (hb : alookup s.clients cid = some buf)
    (hp : pullLoop s cid dl ts = some (.data bs, s₂)) : bs = buf.flatten := by
  induction ts with
  | nil => exact Option.noConfusion hp
  | cons t ts ih =>
    rw [pullLoop] at hp
    split at hp
    · split at hp
      · cases hp
      · rename_i buf' hb'
        split at hp
        · cases hp
        · cases hp
          have := Option.some.inj (hb.symm.trans hb')
          rw [this]
    · split at hp
      · cases hp
      · rename_i buf' hb'
        split at hp
        · cases hp
          have := Option.some.inj (hb.symm.trans hb')
          rw [this]
        · exact ih hp

theorem pullLoop_no_return (s : Broadcaster) (cid dl : Nat) (ts : List Nat)
    (hb : alookup s.clients cid = some [])
    (hsz : alookup s.clientSizes cid = some 0)
    (hts : ∀ t ∈ ts, t < dl) :
    pullLoop s cid dl ts = none := by
  have hag : agetD s.clientSizes cid = 0 := by
    rw [agetD, hsz]
    rfl
  induction ts with
  | nil => rfl
  | cons t ts ih =>
    have ht : ¬ dl ≤ t := Nat.not_le.mpr (hts t (List.mem_cons_self t ts))
    rw [pullLoop, if_neg ht]
    simp only [hb, hag]
    rw [if_neg (by rw [MIN_CHUNK_BYTES]; omega)]
    exact ih (fun u hu => hts u (List.mem_cons_of_mem t hu))

theorem pullLoop_empty_at_deadline (s : Broadcaster) (cid dl t : Nat)
    (ts : List Nat) (hb : alookup s.clients cid = some [])
    (hsz : alookup s.clientSizes cid = some 0)
    (hts : ∀ u ∈ ts, u < dl) (ht : dl ≤ t) :
    pullLoop s cid dl (ts ++ [t]) = some (.empty, s) := by
  induction ts with
  | nil =>
    rw [List.nil_append, pullLoop, if_pos ht]
    simp only [hb]
    rfl
  | cons u ts ih =>
    have hu : ¬ dl ≤ u := Nat.not_le.mpr (hts u (List.mem_cons_self u ts))
    have hag : agetD s.clientSizes cid = 0 := by
      rw [agetD, hsz]
      rfl
    rw [List.cons_append, pullLoop, if_neg hu]
    simp only [hb, hag]
    rw [if_neg (by rw [MIN_CHUNK_BYTES]; omega)]
    exact ih (fun v hv => hts v (List.mem_cons_of_mem u hv))

/-! ### Claim theorems -/

/-- Claim C1: for every registered consumer whose buffer was emptied by the
previous pull, after pushes with payloads `ps = [P1, ..., Pn]` a pull that
returns data returns exactly `P1 ++ ... ++ Pn` in push order — no byte loss,
duplication or reordering — independently of which consumer `cid` is. -/
theorem pull_returns_push_concat (s₀ : Broadcaster) (cid : Nat)
    (h : alookup s₀.clients cid = some []) (ps : List Bytes) (dl : Nat)
    (ts : List Nat) (bs : Bytes) (s' : Broadcaster)
    (hp : pullLoop (pushAll s₀ ps) cid dl ts = some (.data bs, s')) :
    bs = ps.flatten := by
  have hb := alookup_pushAll s₀ ps cid [] h
  rw [List.nil_append] at hb
  exact pullLoop_data_eq _ _ _ _ _ _ _ hb hp

/-- Witness for C1: one registered consumer, pushes `[1,2]` then `[3]`, and a
pull at the deadline returns `[1,2,3]`. -/
theorem pull_returns_push_concat_witness :
    alookup (register Broadcaster.init).2.clients 0 = some [] ∧
    ([1, 2, 3] : Bytes) = List.flatten [[1, 2], [3]] :=
  ⟨by decide,
   pull_returns_push_concat (register Broadcaster.init).2 0 (by decide)
     [[1, 2], [3]] 10 [10] [1, 2, 3] ⟨[(0, [])], [(0, 0)], 1⟩ (by decide)⟩

/-- Claim C2: outside the grace period the watchdog observing
`[idle, idle, non-idle]` replays exactly once, at the second consecutive
idle sample; `[idle, non-idle]` replays zero times; and any non-idle
observation outside grace resets the idle counter to zero. -/
theorem watchdog_two_idle_one_replay (g t1 t2 t3 : Nat) (h1 : g ≤ t1)
    (h2 : g ≤ t2) (h3 : t2 + GRACE_SECONDS ≤ t3) (obsP : Option String)
    (hP : isIdleState obsP = false) :
    watchRun ⟨g, 0⟩ [(t1, some "IDLE"), (t2, some "IDLE"), (t3, obsP)]
      = [false, true, false] ∧
    watchRun ⟨g, 0⟩ [(t1, some "IDLE"), (t2, obsP)] = [false, false] ∧
    (∀ (s : WatchState) (t : Nat) (obs : Option String), s.graceUntil ≤ t →
       isIdleState obs = false →
       (watchStep s t obs).1.idleCount = 0 ∧ (watchStep s t obs).2 = false) := by
  have hI : isIdleState (some "IDLE") = true := rfl
  have e1 : watchStep ⟨g, 0⟩ t1 (some "IDLE") = (⟨g, 1⟩, false) := by
    rw [watchStep, if_neg (Nat.not_lt.mpr h1), hI, if_pos rfl,
      if_neg ((by omega : ¬ 2 ≤ 0 + 1) :
        ¬ 2 ≤ (⟨g, 0⟩ : WatchState).idleCount + 1)]
  have e2 : watchStep ⟨g, 1⟩ t2 (some "IDLE") = (⟨t2 + GRACE_SECONDS, 0⟩, true) := by
    rw [watchStep, if_neg (Nat.not_lt.mpr h2), hI, if_pos rfl,
      if_pos ((by omega : 2 ≤ 1 + 1) :
        2 ≤ (⟨g, 1⟩ : WatchState).idleCount + 1)]
  have e3 : ∀ (s : WatchState) (t : Nat) (obs : Option String),
      s.graceUntil ≤ t → isIdleState obs = false →
      watchStep s t obs = (⟨s.graceUntil, 0⟩, false) := by
    intro s t obs ht hobs
    rw [watchStep, if_neg (Nat.not_lt.mpr ht), hobs]
    rfl
  refine ⟨?_, ?_, fun s t obs ht hobs => by rw [e3 s t obs ht hobs]; exact ⟨rfl, rfl⟩⟩
  · rw [watchRun, e1, watchRun, e2, watchRun,
      e3 ⟨t2 + GRACE_SECONDS, 0⟩ t3 obsP h3 hP, watchRun]
  · rw [watchRun, e1, watchRun, e3 ⟨g, 1⟩ t2 obsP h2 hP, watchRun]

/-- Witness for C2: grace ends at 15; idle polls at 20 and 25, a playing
poll at 41. -/
theorem watchdog_two_idle_one_replay_witness :
    watchRun ⟨15, 0⟩ [(20, some "IDLE"), (25, some "IDLE"), (41, some "PLAYING")]
      = [false, true, false] ∧
    watchRun ⟨15, 0⟩ [(20, some "IDLE"), (25, some "PLAYING")] = [false, false] :=
  ⟨(watchdog_two_idle_one_replay 15 20 25 41 (by omega) (by omega)
      (by decide) (some "PLAYING") rfl).1,
   (watchdog_two_idle_one_replay 15 20 25 41 (by omega) (by omega)
      (by decide) (some "PLAYING") rfl).2.1⟩

/-- Counterexample to C3 as stated: a registered consumer holding 1
accumulated byte — below the 4096-byte flush threshold — with no further
pushes gets its buffered data back at timeout expiry, not the EMPTY result
the claim promises. -/
theorem pull_below_threshold_counterexample :
    agetD (runOps Broadcaster.init [Op.register, Op.push [7]]).1.clientSizes 0
        < MIN_CHUNK_BYTES ∧
    pullLoop (runOps Broadcaster.init [Op.register, Op.push [7]]).1 0 10 [10]
        = some (.data [7], ⟨[(0, [])], [(0, 0)], 1⟩) ∧
    PullResult.data [7] ≠ PullResult.empty := by
  decide

/-- Claim C3 (amended): for a registered consumer with zero accumulated
bytes (empty pending buffer) and no further pushes, the pull loop returns
nothing while every clock sample is before the deadline, and returns EMPTY
(distinct from GONE) at the first clock sample reaching the deadline. -/
theorem pull_empty_exactly_at_timeout (s : Broadcaster) (cid : Nat)
    (hb : alookup s.clients cid = some [])
    (hsz : alookup s.clientSizes cid = some 0) (dl t : Nat)
    (early : List Nat) (hearly : ∀ u ∈ early, u < dl) (ht : dl ≤ t) :
    pullLoop s cid dl early = none ∧
    pullLoop s cid dl (early ++ [t]) = some (.empty, s) :=
  ⟨pullLoop_no_return s cid dl early hb hsz hearly,
   pullLoop_empty_at_deadline s cid dl t early hb hsz hearly ht⟩

/-- Witness for C3 (amended): a fresh consumer, clock samples 3 and 5 before
the deadline 10, then sample 10 at the deadline. -/
theorem pull_empty_exactly_at_timeout_witness :
    pullLoop (register Broadcaster.init).2 0 10 [3, 5] = none ∧
    pullLoop (register Broadcaster.init).2 0 10 ([3, 5] ++ [10])
      = some (.empty, (register Broadcaster.init).2) :=
  pull_empty_exactly_at_timeout (register Broadcaster.init).2 0 (by decide)
    (by decide) 10 10 [3, 5] (by decide) (by decide)

/-- Claim C4: a pull for an id never returned by `register`, or for an id
that has been unregistered (no matter what operations follow), returns GONE
at its very first loop iteration — in particular without waiting for the
timeout, since the clock samples are arbitrary. -/
theorem pull_gone_unregistered (ops ops' : List Op) (cid dl t : Nat)
    (ts : List Nat) :
    (cid ∉ (runOps Broadcaster.init ops).2 →
       pullLoop (runOps Broadcaster.init ops).1 cid dl (t :: ts)
         = some (.gone, (runOps Broadcaster.init ops).1)) ∧
    (cid ∈ (runOps Broadcaster.init ops).2 →
       pullLoop
           (runOps (unregister (runOps Broadcaster.init ops).1 cid) ops').1
           cid dl (t :: ts)
         = some (.gone,
             (runOps (unregister (runOps Broadcaster.init ops).1 cid) ops').1)) := by
  constructor
  · intro hid
    apply pullLoop_gone
    rw [alookup_eq_none]
    intro hk
    rcases runOps_keys_sub Broadcaster.init ops cid hk with h | h
    · simp [Broadcaster.init, akeys_nil] at h
    · exact hid h
  · intro hid
    have hwf : WF (runOps Broadcaster.init ops).1 := wf_runOps wf_init ops
    have hlt : cid < (runOps Broadcaster.init ops).1.nextId :=
      runOps_ids_lt Broadcaster.init ops cid hid
    apply pullLoop_gone
    rw [alookup_eq_none]
    apply runOps_notMem_keys
    · rw [← alookup_eq_none]
      exact alookup_aerase_self _ _ hwf.nodup
    · exact hlt

/-- Witness for C4: id 1 was never registered in a one-register trace; id 0
was registered, then unregistered, then a push happened — both pulls return
GONE at the first clock sample 0, far before the deadline 10. -/
theorem pull_gone_unregistered_witness :
    pullLoop (runOps Broadcaster.init [Op.register]).1 1 10 [0]
      = some (.gone, (runOps Broadcaster.init [Op.register]).1) ∧
    pullLoop
        (runOps (unregister (runOps Broadcaster.init [Op.register]).1 0)
          [Op.push [1]]).1 0 10 [0]
      = some (.gone,
          (runOps (unregister (runOps Broadcaster.init [Op.register]).1 0)
            [Op.push [1]]).1) :=
  ⟨(pull_gone_unregistered [Op.register] [] 1 10 0 []).1 (by decide),
   (pull_gone_unregistered [Op.register] [Op.push [1]] 0 10 0 []).2 (by decide)⟩

/-- Claim C5: two consumers registered before a push both hold exactly the
pushed payload; `register` always creates an empty buffer, so a consumer
registered after the push holds none of the earlier bytes. -/
theorem push_fanout_isolation (s : Broadcaster) (P : Bytes) :
    alookup (push (register (register s).2).2 P).clients (register s).1
      = some [P] ∧
    alookup (push (register (register s).2).2 P).clients
        (register (register s).2).1 = some [P] ∧
    alookup (register (push (register (register s).2).2 P)).2.clients
        (register (push (register (register s).2).2 P)).1 = some [] := by
  have hne : (register s).2.nextId ≠ s.nextId := Nat.succ_ne_self s.nextId
  have l1 : alookup (register (register s).2).2.clients (register s).1
      = some [] := by
    show alookup (aset (register s).2.clients (register s).2.nextId []) s.nextId
      = some []
    rw [alookup_aset_ne _ _ _ _ hne]
    exact alookup_aset_self _ _ _
  have l2 : alookup (register (register s).2).2.clients
      (register (register s).2).1 = some [] := alookup_aset_self _ _ _
  refine ⟨?_, ?_, alookup_aset_self _ _ _⟩
  · rw [push_alookup, l1]
    rfl
  · rw [push_alookup, l2]
    rfl

/-- Counterexample to C6 as stated: the handler defines only `do_GET`, so a
non-GET request — here a POST to the stream path — is answered by the base
class with status 501 (unsupported method), not the 404 the claim promises. -/
theorem nonget_method_counterexample :
    handleRequest "POST" STREAM_ENDPOINT = ⟨501, []⟩ ∧ (501 : Nat) ≠ 404 :=
  ⟨rfl, by omega⟩

/-- Claim C6 (amended): a GET to the fixed stream path gets 200 with
Content-Type for the active codec, Cache-Control no-cache/no-store,
Connection keep-alive and the identifying icy-name header; a GET to any
other path gets 404; a request with any other method gets 501 (unsupported
method), not 404. -/
theorem http_request_dispatch (method path : String) :
    (method = "GET" → path = STREAM_ENDPOINT →
       handleRequest method path
         = ⟨200, [("Content-Type", stream_content_type),
                  ("Cache-Control", "no-cache, no-store"),
                  ("Connection", "keep-alive"),
                  ("icy-name", "AirSpeaker")]⟩
         ∧ stream_content_type = "audio/aac") ∧
    (method = "GET" → path ≠ STREAM_ENDPOINT →
       handleRequest method path = ⟨404, []⟩) ∧
    (method ≠ "GET" → handleRequest method path = ⟨501, []⟩) := by
  refine ⟨?_, ?_, ?_⟩
  · intro hm hp
    subst hm
    constructor
    · rw [handleRequest, if_pos rfl, do_GET, if_neg (by simp [hp])]
    · rfl
  · intro hm hp
    subst hm
    rw [handleRequest, if_pos rfl, do_GET, if_pos hp]
  · intro hm
    rw [handleRequest, if_neg hm]

/-- Witness for C6 (amended): the three concrete requests. -/
theorem http_request_dispatch_witness :
    handleRequest "GET" "/stream"
      = ⟨200, [("Content-Type", stream_content_type),
               ("Cache-Control", "no-cache, no-store"),
               ("Connection", "keep-alive"),
               ("icy-name", "AirSpeaker")]⟩ ∧
    handleRequest "GET" "/other" = ⟨404, []⟩ ∧
    handleRequest "POST" "/stream" = ⟨501, []⟩ :=
  ⟨((http_request_dispatch "GET" "/stream").1 rfl rfl).1,
   (http_request_dispatch "GET" "/other").2.1 rfl (by decide),
   (http_request_dispatch "POST" "/stream").2.2 (by decide)⟩

/-- Claim C7: `connect` on a uuid absent from the last discovery snapshot
fails, returning the torn-down state left by its initial `disconnect()`;
and every failing `connect` leaves no cast handle and no connected uuid —
the supervisor is not connected after any failure. -/
theorem connect_failure_cleanup (s : CastState) (uuid url : String)
    (env : ConnectEnv) :
    (alookup s.discovered uuid = none →
       connect s uuid url env = (false, disconnect s)) ∧
    ((connect s uuid url env).1 = false →
       (connect s uuid url env).2.cast = none ∧
       (connect s uuid url env).2.connectedUuid = none ∧
       isConnected (connect s uuid url env).2 = false) := by
  constructor
  · intro h
    rw [connect,
      show alookup (disconnect s).discovered uuid = none from h]
  · intro hfail
    rw [connect] at hfail ⊢
    rcases hlk : alookup (disconnect s).discovered uuid with _ | dev
    · simp only [hlk] at hfail ⊢
      exact ⟨rfl, rfl, rfl⟩
    · simp only [hlk] at hfail ⊢
      cases env with
      | noCasts => exact ⟨rfl, rfl, rfl⟩
      | raiseAtGetListed => exact ⟨rfl, rfl, rfl⟩
      | raiseAtWait h => exact ⟨rfl, rfl, rfl⟩
      | raiseAtPlay h => exact ⟨rfl, rfl, rfl⟩
      | ok h => exact Bool.noConfusion hfail

/-- Witness for C7: snapshot contains only uuid "u"; connecting to "z"
fails with the torn-down state, and a failing connect to "u" (no
chromecasts found) leaves the supervisor unconnected. -/
theorem connect_failure_cleanup_witness :
    connect ⟨true, some 3, "", some "u", true, [("u", ⟨"n", "m", "h", "u"⟩)]⟩
        "z" "url" .noCasts
      = (false, disconnect
          ⟨true, some 3, "", some "u", true, [("u", ⟨"n", "m", "h", "u"⟩)]⟩) ∧
    (connect ⟨true, some 3, "", some "u", true, [("u", ⟨"n", "m", "h", "u"⟩)]⟩
        "u" "url" .noCasts).2.cast = none :=
  ⟨(connect_failure_cleanup
      ⟨true, some 3, "", some "u", true, [("u", ⟨"n", "m", "h", "u"⟩)]⟩
      "z" "url" .noCasts).1 (by decide),
   ((connect_failure_cleanup
      ⟨true, some 3, "", some "u", true, [("u", ⟨"n", "m", "h", "u"⟩)]⟩
      "u" "url" .noCasts).2 (by decide)).1⟩

/-- Claim C8: over any operation trace from the initial broadcaster, the
ids returned by `register` are strictly increasing in call order, hence
pairwise distinct — ids are never reused, even after unregistration. -/
theorem register_ids_monotone (ops : List Op) :
    ((runOps Broadcaster.init ops).2).Sorted (· < ·) ∧
    ((runOps Broadcaster.init ops).2).Nodup :=
  ⟨(runOps_ids Broadcaster.init ops).1,
   (runOps_ids Broadcaster.init ops).1.nodup⟩

/-- Claim C9: in every reachable broadcaster state the `_clients` and
`_client_sizes` dicts hold exactly the same keys, and each recorded size is
the total length of that client's pending chunks; being stated for every
operation trace, this is preserved by register, unregister, push and pull. -/
theorem clients_sizes_agree (ops : List Op) :
    (∀ k, k ∈ akeys (runOps Broadcaster.init ops).1.clients ↔
       k ∈ akeys (runOps Broadcaster.init ops).1.clientSizes) ∧
    (∀ cid buf,
       alookup (runOps Broadcaster.init ops).1.clients cid = some buf →
       alookup (runOps Broadcaster.init ops).1.clientSizes cid
         = some (sumLen buf)) := by
  have h := wf_runOps wf_init ops
  exact ⟨fun k => by rw [h.keysEq], h.sizes⟩

/-- Claim C10: `discover` with a callback returns the empty list
immediately whatever the environment holds, delivering the real result (or
`[]` on failure) only through the callback; only the callback-less call
returns the discovered devices directly. -/
theorem discover_callback_empty_return (env : DiscoverEnv) :
    discover true env = ([], some (envResult env)) ∧
    discover false env = (envResult env, none) := by
  cases env <;> simp [discover, discoverBlocking]

end AirSpeaker
